import Mathlib

/-!
Verification of the semantic memory engine: a shallow embedding of the
chunking, embedding-fallback, persistence and retrieval code in
`src/lib/server/memory.ts` and `src/lib/server/repository.ts` (the
in-memory, no-Supabase code paths), together with theorems settling the
specification's claims about it.

Modelling conventions:
- JavaScript numbers are modelled as exact arithmetic: vector components
  as `ℚ`, scores (which pass through `Math.sqrt`) as `ℝ`.
- JavaScript strings are modelled as `List Char`; `charCodeAt` as
  `Char.toNat` (equal on the BMP code points exercised here).
- Timestamps (`createdAt` ISO strings, `Date.now()`) are modelled as
  integer milliseconds since the epoch; `Date.now()` is an explicit
  `nowMs` parameter, and `crypto.randomUUID()` an explicit `newId`
  parameter.
-/

/-- A stored semantic memory chunk (`SemanticMemoryChunk` in
`src/lib/types.ts`, as constructed by `repository.ts`). -/
structure SemanticMemoryChunk where
  id : String
  userId : String
  sessionId : String
  textChunk : String
  messageIds : List String
  embedding : List ℚ
  createdAt : ℤ

deriving instance DecidableEq for SemanticMemoryChunk

/-- A retrieval result (`RetrievedContext` in `src/lib/types.ts`):
ephemeral, computed by `searchSemanticMemory`. -/
structure RetrievedContext where
  chunk : SemanticMemoryChunk
  similarityScore : ℝ
  recencyScore : ℝ
  finalScore : ℝ

/-- The dot product accumulated by the loop in `cosineSimilarity`
(`repository.ts`): the loop `dot += a[idx] * b[idx]` over
`idx < a.length`, entered only when `a.length == b.length`.
`normA`/`normB` of the same loop are `dotQ a a` / `dotQ b b`. -/
def dotQ (a b : List ℚ) : ℚ :=
  ((a.zip b).map fun p => p.1 * p.2).sum

/-- `normA` (resp. `normB`) of the `cosineSimilarity` loop: the sum of
squares of the components. -/
def normSq (a : List ℚ) : ℚ :=
  dotQ a a

/-- `cosineSimilarity` from `repository.ts` lines 13-33:
guard `a.length !== b.length || a.length === 0` returns 0; guard
`normA === 0 || normB === 0` returns 0; otherwise
`dot / Math.sqrt(normA * normB)`. -/
noncomputable def cosineSimilarity (a b : List ℚ) : ℝ :=
  if a.length ≠ b.length ∨ a.length = 0 then 0
  else if normSq a = 0 ∨ normSq b = 0 then 0
  else (dotQ a b : ℝ) / Real.sqrt ((normSq a : ℝ) * (normSq b : ℝ))

/-- The body of the `.map` in `searchSemanticMemory` (`repository.ts`
lines 461-467): score one chunk against the query embedding at time
`nowMs`. -/
noncomputable def scoreChunk (nowMs : ℤ) (queryEmbedding : List ℚ)
    (chunk : SemanticMemoryChunk) : RetrievedContext :=
  let similarityScore := cosineSimilarity chunk.embedding queryEmbedding
  let ageMs : ℤ := nowMs - chunk.createdAt
  let recencyScore : ℝ := max 0 (1 - (ageMs : ℝ) / (1000 * 60 * 60 * 24 * 30))
  let finalScore : ℝ := similarityScore * 0.8 + recencyScore * 0.2
  { chunk := chunk, similarityScore := similarityScore,
    recencyScore := recencyScore, finalScore := finalScore }

/-- The tenant scan of `searchSemanticMemory` (`repository.ts` line 459):
`memoryStore.semanticMemory.filter((chunk) => chunk.userId === userId)`.
This is also the read the spec calls `listByUser`. -/
def userChunks (store : List SemanticMemoryChunk) (userId : String) :
    List SemanticMemoryChunk :=
  store.filter fun chunk => chunk.userId == userId

/-- `searchSemanticMemory` from `repository.ts` lines 450-471 (the
in-memory branch): filter the store to the user's chunks, score each,
sort descending by `finalScore` (the comparator
`(a, b) => b.finalScore - a.finalScore`; `mergeSort` matches the
stable sort required of `Array.prototype.sort`), truncate to `count`. -/
noncomputable def searchSemanticMemory (store : List SemanticMemoryChunk)
    (userId : String) (queryEmbedding : List ℚ) (count : ℕ) (nowMs : ℤ) :
    List RetrievedContext :=
  (((userChunks store userId).map (scoreChunk nowMs queryEmbedding)).mergeSort
      fun a b => decide (b.finalScore ≤ a.finalScore)).take count

/-- `addSemanticChunk` from `repository.ts` lines 402-448 (the in-memory
branch): build the payload from the inputs plus a fresh id and the
current timestamp, push it onto the store, return it. Returns
`(payload, updated store)`. -/
def addSemanticChunk (store : List SemanticMemoryChunk) (newId : String)
    (nowMs : ℤ) (userId sessionId textChunk : String)
    (messageIds : List String) (embedding : List ℚ) :
    SemanticMemoryChunk × List SemanticMemoryChunk :=
  let payload : SemanticMemoryChunk :=
    { id := newId, userId := userId, sessionId := sessionId,
      textChunk := textChunk, messageIds := messageIds,
      embedding := embedding, createdAt := nowMs }
  (payload, store ++ [payload])

/-- The whitespace class used by `text.trim()` and the `/\s+/g` regex in
`chunkText` (`memory.ts`). -/
def isWs (c : Char) : Bool :=
  c.isWhitespace

/-- `text.trim()`: drop leading and trailing whitespace. -/
def trimWs (l : List Char) : List Char :=
  ((l.dropWhile isWs).reverse.dropWhile isWs).reverse

/-- `.replace(/\s+/g, " ")`: every maximal run of whitespace becomes a
single space. -/
def collapseWs : List Char → List Char
  | [] => []
  | c :: rest =>
    if isWs c then ' ' :: collapseWs (rest.dropWhile isWs)
    else c :: collapseWs rest
termination_by l => l.length
decreasing_by
· simp only [List.length_cons]
  exact Nat.lt_succ_of_le (List.Sublist.length_le (List.dropWhile_sublist isWs))
· simp only [List.length_cons]
  exact Nat.lt_succ_self rest.length

/-- The normalization performed first by `chunkText`:
`text.trim().replace(/\s+/g, " ")`. -/
def normalizeText (text : List Char) : List Char :=
  collapseWs (trimWs text)

/-- The `while (start < normalized.length)` loop of `chunkText`: emit
`normalized.slice(start, start + size)` repeatedly. The source loop does
not terminate when `size = 0` (start never advances); the model returns
`[]` in that never-reached-by-callers case to stay total. -/
def chunkLoop (size : ℕ) (l : List Char) : List (List Char) :=
  if _hs : size = 0 then []
  else if _hl : l = [] then []
  else l.take size :: chunkLoop size (l.drop size)
termination_by l.length
decreasing_by
simp only [List.length_drop]
have hpos : 0 < l.length := List.length_pos.mpr _hl
omega

/-- `chunkText` from `memory.ts` lines 6-20: normalize, return `[]` for
empty normalized text, else cut into consecutive `size`-character
segments. -/
def chunkText (text : List Char) (size : ℕ) : List (List Char) :=
  let normalized := normalizeText text
  if normalized = [] then [] else chunkLoop size normalized

/-- The accumulation loop of `fallbackEmbedding` (`memory.ts` lines
23-26): `vector[idx % vector.length] += text.charCodeAt(idx)`, with
`vector.length = 32`. -/
def accumBuckets : List Char → ℕ → List ℚ → List ℚ
  | [], _, vector => vector
  | c :: rest, idx, vector =>
    accumBuckets rest (idx + 1)
      (vector.set (idx % 32) (vector.getD (idx % 32) 0 + (c.toNat : ℚ)))

/-- `fallbackEmbedding` from `memory.ts` lines 22-28: a 32-zero vector,
the accumulation loop, then `.map((value) => value / Math.max(text.length, 1))`. -/
def fallbackEmbedding (text : List Char) : List ℚ :=
  (accumBuckets text 0 (List.replicate 32 0)).map
    fun value => value / ((Nat.max text.length 1 : ℕ) : ℚ)

/-- The closed-form bucket content the spec describes for the fallback
embedding: the sum of the character codes at positions congruent to `j`
modulo 32, scanning from position `idx`. Stated from the spec's words to
compare with the loop `accumBuckets`. -/
def bucketSum : List Char → ℕ → ℕ → ℚ
  | [], _, _ => 0
  | c :: rest, idx, j =>
    (if idx % 32 = j then (c.toNat : ℚ) else 0) + bucketSum rest (idx + 1) j

/-- A concrete chunk used by witnesses and counterexamples. -/
def mkChunk (id userId : String) (createdAt : ℤ) (embedding : List ℚ) :
    SemanticMemoryChunk :=
  { id := id, userId := userId, sessionId := "s", textChunk := "t",
    messageIds := ["m"], embedding := embedding, createdAt := createdAt }

/-! ## Helper lemmas -/

theorem normSq_cons (x : ℚ) (l : List ℚ) : normSq (x :: l) = x * x + normSq l := by
  simp [normSq, dotQ]

theorem normSq_nonneg (a : List ℚ) : 0 ≤ normSq a := by
  induction a with
  | nil => simp [normSq, dotQ]
  | cons x l ih =>
    rw [normSq_cons]
    exact add_nonneg (mul_self_nonneg x) ih

theorem normSq_replicate_zero (n : ℕ) : normSq (List.replicate n 0) = 0 := by
  induction n with
  | zero => simp [normSq, dotQ]
  | succ k ih =>
    rw [List.replicate_succ, normSq_cons, ih]
    ring

theorem cosineSimilarity_of_length_ne (a b : List ℚ) (h : a.length ≠ b.length) :
    cosineSimilarity a b = 0 := by
  rw [cosineSimilarity, if_pos (Or.inl h)]

theorem cosineSimilarity_of_normSq_left (a b : List ℚ) (h : normSq a = 0) :
    cosineSimilarity a b = 0 := by
  rw [cosineSimilarity]
  split
  · rfl
  · rw [if_pos (Or.inl h)]

theorem cosineSimilarity_of_normSq_right (a b : List ℚ) (h : normSq b = 0) :
    cosineSimilarity a b = 0 := by
  rw [cosineSimilarity]
  split
  · rfl
  · rw [if_pos (Or.inr h)]

/-! ## Claim C3: totality of cosineSimilarity -/

/-- Claim C3: for every pair of vectors, `cosineSimilarity` is a total
computation (it is a Lean function into `ℝ`, so it never throws and its
value is a real number, never a NaN); when the lengths differ, or either
vector has zero magnitude (`normSq = 0`, which covers the empty vector),
the result is exactly 0; and in the remaining case the divisor
`Real.sqrt (normSq a * normSq b)` is nonzero, so no division by zero
occurs. -/
theorem cosineSimilarity_total_guards (a b : List ℚ) :
    (a.length ≠ b.length → cosineSimilarity a b = 0) ∧
    (normSq a = 0 → cosineSimilarity a b = 0) ∧
    (normSq b = 0 → cosineSimilarity a b = 0) ∧
    (normSq a ≠ 0 → normSq b ≠ 0 →
      Real.sqrt ((normSq a : ℝ) * (normSq b : ℝ)) ≠ 0) := by
  refine ⟨cosineSimilarity_of_length_ne a b, cosineSimilarity_of_normSq_left a b,
    cosineSimilarity_of_normSq_right a b, fun ha hb => ?_⟩
  have ha' : (0 : ℝ) < (normSq a : ℝ) := by
    exact_mod_cast lt_of_le_of_ne (normSq_nonneg a) (Ne.symm ha)
  have hb' : (0 : ℝ) < (normSq b : ℝ) := by
    exact_mod_cast lt_of_le_of_ne (normSq_nonneg b) (Ne.symm hb)
  exact ne_of_gt (Real.sqrt_pos.mpr (mul_pos ha' hb'))

/-- Witness for C3 at concrete inputs: a length mismatch, a zero-magnitude
left vector, a zero-magnitude right vector, and a nonzero divisor. -/
theorem cosineSimilarity_total_guards_witness :
    cosineSimilarity [1] [1, 2] = 0 ∧ cosineSimilarity [0] [3] = 0 ∧
    cosineSimilarity [3] [0] = 0 ∧
    Real.sqrt ((normSq [1] : ℝ) * (normSq [1] : ℝ)) ≠ 0 :=
  ⟨(cosineSimilarity_total_guards [1] [1, 2]).1 (by decide),
   (cosineSimilarity_total_guards [0] [3]).2.1 (by norm_num [normSq, dotQ]),
   (cosineSimilarity_total_guards [3] [0]).2.2.1 (by norm_num [normSq, dotQ]),
   (cosineSimilarity_total_guards [1] [1]).2.2.2 (by norm_num [normSq, dotQ])
     (by norm_num [normSq, dotQ])⟩

/-! ## Claim C8: cosineSimilarity at the reference points -/

/-- Claim C8: for equal-length vectors with dot product zero (orthogonal
vectors) the similarity is 0, and for a non-zero vector paired with
itself it is exactly 1. -/
theorem cosineSimilarity_reference_points (a b : List ℚ) :
    (a.length = b.length → dotQ a b = 0 → cosineSimilarity a b = 0) ∧
    (normSq a ≠ 0 → cosineSimilarity a a = 1) := by
  constructor
  · intro hlen hdot
    rw [cosineSimilarity]
    split
    · rfl
    split
    · rfl
    · rw [hdot]
      simp
  · intro ha
    have hane : a ≠ [] := by
      intro h
      rw [h] at ha
      exact ha (by simp [normSq, dotQ])
    have hpos : (0 : ℝ) < (normSq a : ℝ) := by
      exact_mod_cast lt_of_le_of_ne (normSq_nonneg a) (Ne.symm ha)
    rw [cosineSimilarity, if_neg, if_neg]
    · rw [Real.sqrt_mul_self hpos.le]
      have hda : ((dotQ a a : ℚ) : ℝ) = (normSq a : ℝ) := by rw [normSq]
      rw [hda]
      exact div_self hpos.ne'
    · simp [ha]
    · simp [List.length_eq_zero, hane]

/-- Witness for C8: orthogonal pair `[1, 0]`, `[0, 1]` has similarity 0;
the non-zero vector `[2]` against itself has similarity 1. -/
theorem cosineSimilarity_reference_points_witness :
    cosineSimilarity [1, 0] [0, 1] = 0 ∧ cosineSimilarity [2] [2] = 1 :=
  ⟨(cosineSimilarity_reference_points [1, 0] [0, 1]).1 (by decide)
     (by norm_num [dotQ]),
   (cosineSimilarity_reference_points [2] [2]).2 (by norm_num [normSq, dotQ])⟩

/-! ## Claim C6: recency decay formula and boundaries -/

/-- Claim C6: the recencyScore computed during retrieval (the `.map` body
`scoreChunk`) equals `max 0 (1 - ageMs / 30 days)` with
`ageMs = now - createdAt`; a chunk created now scores 1, a chunk created
exactly 30 days (2592000000 ms) ago scores 0, and a chunk created 60 days
ago also scores 0. -/
theorem scoreChunk_recency_formula (now : ℤ) (q : List ℚ)
    (c : SemanticMemoryChunk) :
    (scoreChunk now q c).recencyScore
        = max 0 (1 - ((now - c.createdAt : ℤ) : ℝ) / (1000 * 60 * 60 * 24 * 30)) ∧
    (scoreChunk now q { c with createdAt := now }).recencyScore = 1 ∧
    (scoreChunk now q { c with createdAt := now - 2592000000 }).recencyScore = 0 ∧
    (scoreChunk now q { c with createdAt := now - 5184000000 }).recencyScore = 0 := by
  refine ⟨rfl, ?_, ?_, ?_⟩
  · have h : (scoreChunk now q { c with createdAt := now }).recencyScore
        = max 0 (1 - ((now - now : ℤ) : ℝ) / (1000 * 60 * 60 * 24 * 30)) := rfl
    have h0 : ((now - now : ℤ) : ℝ) = 0 := by push_cast; ring
    rw [h, h0, zero_div, sub_zero, max_eq_right zero_le_one]
  · have h : (scoreChunk now q { c with createdAt := now - 2592000000 }).recencyScore
        = max 0 (1 - ((now - (now - 2592000000) : ℤ) : ℝ) / (1000 * 60 * 60 * 24 * 30)) := rfl
    have h0 : ((now - (now - 2592000000) : ℤ) : ℝ) = 2592000000 := by push_cast; ring
    have h1 : (1 : ℝ) - 2592000000 / (1000 * 60 * 60 * 24 * 30) = 0 := by norm_num
    rw [h, h0, h1, max_self]
  · have h : (scoreChunk now q { c with createdAt := now - 5184000000 }).recencyScore
        = max 0 (1 - ((now - (now - 5184000000) : ℤ) : ℝ) / (1000 * 60 * 60 * 24 * 30)) := rfl
    have h0 : ((now - (now - 5184000000) : ℤ) : ℝ) = 5184000000 := by push_cast; ring
    have h1 : (1 : ℝ) - 5184000000 / (1000 * 60 * 60 * 24 * 30) = -1 := by norm_num
    rw [h, h0, h1, max_eq_left (by norm_num)]

/-! ## Claim C7: recencyScore range (corrected) -/

/-- Counterexample to C7 as stated: a chunk created 30 days in the future
of the current time gets recencyScore 2, outside [0, 1] — the code takes
`max 0 _` but never caps the upper bound. -/
theorem scoreChunk_recency_counterexample :
    (scoreChunk 0 [] (mkChunk "f" "alice" 2592000000 [1])).recencyScore = 2 ∧
    ¬ (scoreChunk 0 [] (mkChunk "f" "alice" 2592000000 [1])).recencyScore ≤ 1 := by
  have h : (scoreChunk 0 [] (mkChunk "f" "alice" 2592000000 [1])).recencyScore
      = max 0 (1 - (((0 : ℤ) - 2592000000 : ℤ) : ℝ) / (1000 * 60 * 60 * 24 * 30)) := rfl
  have h0 : (((0 : ℤ) - 2592000000 : ℤ) : ℝ) = -2592000000 := by push_cast; ring
  have h1 : (1 : ℝ) - (-2592000000) / (1000 * 60 * 60 * 24 * 30) = 2 := by norm_num
  have hv : (scoreChunk 0 [] (mkChunk "f" "alice" 2592000000 [1])).recencyScore = 2 := by
    rw [h, h0, h1, max_eq_right (by norm_num)]
  refine ⟨hv, ?_⟩
  rw [hv]
  norm_num

/-- Claim C7 amended: the recencyScore assigned by retrieval is always
nonnegative, and lies in [0, 1] whenever the chunk's `createdAt` does not
exceed the current time (nonnegative age); only future-dated chunks
(negative age) escape the interval, as the code never caps above. -/
theorem scoreChunk_recency_amended (now : ℤ) (q : List ℚ)
    (c : SemanticMemoryChunk) :
    0 ≤ (scoreChunk now q c).recencyScore ∧
    (c.createdAt ≤ now → (scoreChunk now q c).recencyScore ≤ 1) := by
  have h : (scoreChunk now q c).recencyScore
      = max 0 (1 - ((now - c.createdAt : ℤ) : ℝ) / (1000 * 60 * 60 * 24 * 30)) := rfl
  constructor
  · rw [h]
    exact le_max_left 0 _
  · intro hage
    rw [h]
    apply max_le (by norm_num)
    have hge : (0 : ℝ) ≤ ((now - c.createdAt : ℤ) : ℝ) := by
      have hz : (0 : ℤ) ≤ now - c.createdAt := by omega
      exact_mod_cast hz
    have hd : (0 : ℝ) ≤ ((now - c.createdAt : ℤ) : ℝ) / (1000 * 60 * 60 * 24 * 30) :=
      div_nonneg hge (by norm_num)
    linarith

/-- Witness for the amended C7 at a concrete past-dated chunk. -/
theorem scoreChunk_recency_amended_witness :
    0 ≤ (scoreChunk 5 [] (mkChunk "a" "alice" 3 [1])).recencyScore ∧
    (scoreChunk 5 [] (mkChunk "a" "alice" 3 [1])).recencyScore ≤ 1 :=
  ⟨(scoreChunk_recency_amended 5 [] (mkChunk "a" "alice" 3 [1])).1,
   (scoreChunk_recency_amended 5 [] (mkChunk "a" "alice" 3 [1])).2 (by decide)⟩

/-! ## Claim C4: chunkText -/

theorem chunkLoop_flatten_aux (size : ℕ) (hs : 0 < size) :
    ∀ (n : ℕ) (l : List Char), l.length ≤ n → (chunkLoop size l).flatten = l := by
  intro n
  induction n with
  | zero =>
    intro l hl
    have hnil : l = [] := List.length_eq_zero.mp (Nat.le_zero.mp hl)
    subst hnil
    rw [chunkLoop, dif_neg hs.ne', dif_pos rfl]
    rfl
  | succ n ih =>
    intro l hl
    rw [chunkLoop, dif_neg hs.ne']
    by_cases hnil : l = []
    · rw [dif_pos hnil, hnil]
      rfl
    · rw [dif_neg hnil, List.flatten_cons,
        ih (l.drop size) (by simp only [List.length_drop]; omega)]
      exact List.take_append_drop size l

theorem chunkLoop_flatten (size : ℕ) (hs : 0 < size) (l : List Char) :
    (chunkLoop size l).flatten = l :=
  chunkLoop_flatten_aux size hs l.length l le_rfl

theorem chunkLoop_mem_aux (size : ℕ) (hs : 0 < size) :
    ∀ (n : ℕ) (l : List Char), l.length ≤ n →
      ∀ s ∈ chunkLoop size l, s.length ≤ size ∧ s ≠ [] := by
  intro n
  induction n with
  | zero =>
    intro l hl s hsmem
    have hnil : l = [] := List.length_eq_zero.mp (Nat.le_zero.mp hl)
    subst hnil
    rw [chunkLoop, dif_neg hs.ne', dif_pos rfl] at hsmem
    exact absurd hsmem (List.not_mem_nil s)
  | succ n ih =>
    intro l hl s hsmem
    rw [chunkLoop, dif_neg hs.ne'] at hsmem
    by_cases hnil : l = []
    · rw [dif_pos hnil] at hsmem
      exact absurd hsmem (List.not_mem_nil s)
    · rw [dif_neg hnil] at hsmem
      rcases List.mem_cons.mp hsmem with hhead | htail
      · subst hhead
        refine ⟨by simp only [List.length_take]; omega, ?_⟩
        rw [Ne, List.take_eq_nil_iff]
        push_neg
        exact ⟨hs.ne', hnil⟩
      · exact ih (l.drop size) (by simp only [List.length_drop]; omega) s htail

theorem chunkLoop_ne_nil (size : ℕ) (hs : 0 < size) (l : List Char)
    (hl : l ≠ []) : chunkLoop size l ≠ [] := by
  rw [chunkLoop, dif_neg hs.ne', dif_neg hl]
  exact List.cons_ne_nil _ _

/-- Claim C4: for every positive size, `chunkText` first normalizes (trim
plus collapse of whitespace runs, the content of `normalizeText`); it
returns `[]` exactly when the normalized text is empty, so no empty chunk
is ever emitted; every segment has at most `size` characters; the
segments concatenate back to the normalized input; and the function is
deterministic. -/
theorem chunkText_spec (text : List Char) (size : ℕ) (hs : 0 < size) :
    (chunkText text size = [] ↔ normalizeText text = []) ∧
    (∀ s ∈ chunkText text size, s.length ≤ size ∧ s ≠ []) ∧
    (chunkText text size).flatten = normalizeText text ∧
    chunkText text size = chunkText text size := by
  refine ⟨?_, ?_, ?_, rfl⟩
  · rw [chunkText]
    by_cases hnil : normalizeText text = []
    · rw [if_pos hnil]
      exact ⟨fun _ => hnil, fun _ => rfl⟩
    · rw [if_neg hnil]
      exact ⟨fun h => absurd h (chunkLoop_ne_nil size hs _ hnil),
        fun h => absurd h hnil⟩
  · intro s hsmem
    rw [chunkText] at hsmem
    by_cases hnil : normalizeText text = []
    · rw [if_pos hnil] at hsmem
      exact absurd hsmem (List.not_mem_nil s)
    · rw [if_neg hnil] at hsmem
      exact chunkLoop_mem_aux size hs (normalizeText text).length _ le_rfl s hsmem
  · rw [chunkText]
    by_cases hnil : normalizeText text = []
    · rw [if_pos hnil, hnil]
      rfl
    · rw [if_neg hnil]
      exact chunkLoop_flatten size hs (normalizeText text)

/-- Witness for C4 on the concrete input `"  a  b "` with size 2: the
hypothesis `0 < 2` is discharged and the concatenation property holds at
that input. -/
theorem chunkText_spec_witness :
    (0 : ℕ) < 2 ∧
    (chunkText "  a  b ".toList 2).flatten = normalizeText "  a  b ".toList :=
  ⟨by decide, (chunkText_spec "  a  b ".toList 2 (by decide)).2.2.1⟩

/-! ## Claim C5: the fallback embedding -/

theorem length_accumBuckets (l : List Char) :
    ∀ (idx : ℕ) (v : List ℚ), (accumBuckets l idx v).length = v.length := by
  induction l with
  | nil => intro idx v; rfl
  | cons c rest ih =>
    intro idx v
    rw [accumBuckets, ih]
    exact List.length_set v _ _

theorem getD_accumBuckets (l : List Char) :
    ∀ (idx : ℕ) (v : List ℚ), v.length = 32 → ∀ j, j < 32 →
      (accumBuckets l idx v).getD j 0 = v.getD j 0 + bucketSum l idx j := by
  induction l with
  | nil =>
    intro idx v hv j hj
    rw [accumBuckets, bucketSum, add_zero]
  | cons c rest ih =>
    intro idx v hv j hj
    rw [accumBuckets, bucketSum,
      ih (idx + 1) _ (by rw [List.length_set]; exact hv) j hj]
    rcases eq_or_ne (idx % 32) j with he | hne
    · rw [if_pos he, ← he]
      have hlt : idx % 32 < v.length := by
        rw [hv]
        exact Nat.mod_lt idx (by norm_num)
      simp only [List.getD_eq_getElem?_getD, List.getElem?_set_self hlt,
        Option.getD_some]
      ring
    · rw [if_neg hne]
      simp only [List.getD_eq_getElem?_getD, List.getElem?_set_ne hne]
      ring

theorem getD_map_of_lt (f : ℚ → ℚ) (L : List ℚ) (j : ℕ) (hj : j < L.length) :
    (L.map f).getD j 0 = f (L.getD j 0) := by
  simp only [List.getD_eq_getElem?_getD, List.getElem?_map,
    List.getElem?_eq_getElem hj]
  rfl

/-- Claim C5: the fallback embedding always has exactly 32 entries; entry
`j` is the sum of the character codes at positions congruent to `j`
modulo 32 divided by `max(length, 1)`; that divisor is never zero; and
the function is deterministic. -/
theorem fallbackEmbedding_spec (text : List Char) :
    (fallbackEmbedding text).length = 32 ∧
    (∀ j, j < 32 →
      (fallbackEmbedding text).getD j 0
        = bucketSum text 0 j / ((Nat.max text.length 1 : ℕ) : ℚ)) ∧
    ((Nat.max text.length 1 : ℕ) : ℚ) ≠ 0 ∧
    fallbackEmbedding text = fallbackEmbedding text := by
  have hlen : (accumBuckets text 0 (List.replicate 32 0)).length = 32 := by
    rw [length_accumBuckets]
    exact List.length_replicate 32 0
  refine ⟨?_, ?_, ?_, rfl⟩
  · rw [fallbackEmbedding, List.length_map, hlen]
  · intro j hj
    rw [fallbackEmbedding, getD_map_of_lt _ _ j (by rw [hlen]; exact hj),
      getD_accumBuckets text 0 (List.replicate 32 0) (List.length_replicate 32 0) j hj]
    have hrep : (List.replicate 32 (0 : ℚ)).getD j 0 = 0 := by
      simp only [List.getD_eq_getElem?_getD, List.getElem?_replicate_of_lt hj,
        Option.getD_some]
    rw [hrep, zero_add]
  · have h1 : 1 ≤ Nat.max text.length 1 := Nat.le_max_right _ _
    have h2 : Nat.max text.length 1 ≠ 0 := by omega
    exact_mod_cast h2

/-- Witness for C5 at the concrete input `"ab"`, bucket 0. -/
theorem fallbackEmbedding_spec_witness :
    (0 : ℕ) < 32 ∧
    (fallbackEmbedding "ab".toList).getD 0 0
      = bucketSum "ab".toList 0 0 / ((Nat.max ("ab".toList).length 1 : ℕ) : ℚ) :=
  ⟨by decide, (fallbackEmbedding_spec "ab".toList).2.1 0 (by decide)⟩

/-! ## Retrieval helper lemmas -/

theorem mergeSort_desc_pairwise (l : List RetrievedContext) :
    (l.mergeSort fun a b => decide (b.finalScore ≤ a.finalScore)).Pairwise
      fun x y => y.finalScore ≤ x.finalScore := by
  refine (List.sorted_mergeSort ?_ ?_ l).imp ?_
  · intro a b c hab hbc
    simp only [decide_eq_true_eq] at hab hbc ⊢
    exact le_trans hbc hab
  · intro a b
    rcases le_total b.finalScore a.finalScore with h | h <;> simp [h]
  · intro a b h
    exact of_decide_eq_true h

theorem exists_scoreChunk_of_mem (store : List SemanticMemoryChunk)
    (userId : String) (q : List ℚ) (count : ℕ) (now : ℤ)
    (r : RetrievedContext)
    (hr : r ∈ searchSemanticMemory store userId q count now) :
    ∃ c ∈ userChunks store userId, r = scoreChunk now q c := by
  rw [searchSemanticMemory] at hr
  have h1 := List.mem_of_mem_take hr
  rw [List.mem_mergeSort] at h1
  rcases List.mem_map.mp h1 with ⟨c, hc, hcr⟩
  exact ⟨c, hc, hcr.symm⟩

/-! ## Claim C1: top-K ordering and truncation -/

/-- Claim C1: `searchSemanticMemory` returns its results sorted
descending by `finalScore`; every entry's `finalScore` is
`similarityScore * 0.8 + recencyScore * 0.2`; the result never exceeds
the requested count nor the number of chunks owned by the user; and a
user with zero chunks gets the empty result, not an error. -/
theorem searchSemanticMemory_ranking (store : List SemanticMemoryChunk)
    (userId : String) (q : List ℚ) (count : ℕ) (now : ℤ) :
    (searchSemanticMemory store userId q count now).Pairwise
      (fun x y => y.finalScore ≤ x.finalScore) ∧
    (∀ r ∈ searchSemanticMemory store userId q count now,
      r.finalScore = r.similarityScore * 0.8 + r.recencyScore * 0.2) ∧
    (searchSemanticMemory store userId q count now).length ≤ count ∧
    (searchSemanticMemory store userId q count now).length
      ≤ (userChunks store userId).length ∧
    (userChunks store userId = [] →
      searchSemanticMemory store userId q count now = []) := by
  refine ⟨?_, ?_, ?_, ?_, ?_⟩
  · exact List.Pairwise.sublist (List.take_sublist count _)
      (mergeSort_desc_pairwise ((userChunks store userId).map (scoreChunk now q)))
  · intro r hr
    rcases exists_scoreChunk_of_mem store userId q count now r hr with ⟨c, _, rfl⟩
    rfl
  · rw [searchSemanticMemory, List.length_take]
    exact min_le_left _ _
  · have hl : (((userChunks store userId).map (scoreChunk now q)).mergeSort
        fun a b => decide (b.finalScore ≤ a.finalScore)).length
        = (userChunks store userId).length := by
      rw [List.length_mergeSort, List.length_map]
    rw [searchSemanticMemory, List.length_take, hl]
    exact min_le_right _ _
  · intro h
    rw [searchSemanticMemory, h]
    simp

/-- Witness for C1: a user with zero chunks retrieves the empty list. -/
theorem searchSemanticMemory_ranking_witness :
    searchSemanticMemory [] "u" [] 6 0 = [] :=
  (searchSemanticMemory_ranking [] "u" [] 6 0).2.2.2.2 rfl

/-! ## Claim C2: tenant isolation -/

/-- Claim C2: every retrieved context's chunk belongs to the queried
user, however many chunks other users own in the store. -/
theorem searchSemanticMemory_tenant_isolation (store : List SemanticMemoryChunk)
    (userId : String) (q : List ℚ) (count : ℕ) (now : ℤ)
    (r : RetrievedContext)
    (hr : r ∈ searchSemanticMemory store userId q count now) :
    r.chunk.userId = userId := by
  rcases exists_scoreChunk_of_mem store userId q count now r hr with ⟨c, hc, rfl⟩
  rw [userChunks] at hc
  exact eq_of_beq (List.mem_filter.mp hc).2

/-- Witness for C2: a one-chunk store for "alice"; the retrieved entry
belongs to "alice". -/
theorem searchSemanticMemory_tenant_isolation_witness :
    (scoreChunk 0 [] (mkChunk "a" "alice" 0 [1])).chunk.userId = "alice" :=
  searchSemanticMemory_tenant_isolation [mkChunk "a" "alice" 0 [1]] "alice" [] 6 0
    (scoreChunk 0 [] (mkChunk "a" "alice" 0 [1]))
    (by simp [searchSemanticMemory, userChunks, mkChunk])

/-! ## Claim C9: write-then-read visibility -/

/-- Claim C9: appending a chunk with a fresh id for user `u` makes it
visible exactly once in an immediately subsequent read of `u`'s chunks
(the retrieval scan / `listByUser` read `userChunks`), carrying exactly
the userId, sessionId, textChunk, messageIds and embedding passed in. -/
theorem addSemanticChunk_write_then_read (store : List SemanticMemoryChunk)
    (newId : String) (now : ℤ) (u s t : String) (mids : List String)
    (emb : List ℚ) (hfresh : ∀ c ∈ store, c.id ≠ newId) :
    (userChunks (addSemanticChunk store newId now u s t mids emb).2 u).count
        (addSemanticChunk store newId now u s t mids emb).1 = 1 ∧
    (addSemanticChunk store newId now u s t mids emb).1.userId = u ∧
    (addSemanticChunk store newId now u s t mids emb).1.sessionId = s ∧
    (addSemanticChunk store newId now u s t mids emb).1.textChunk = t ∧
    (addSemanticChunk store newId now u s t mids emb).1.messageIds = mids ∧
    (addSemanticChunk store newId now u s t mids emb).1.embedding = emb := by
  refine ⟨?_, rfl, rfl, rfl, rfl, rfl⟩
  have hstore : (addSemanticChunk store newId now u s t mids emb).2
      = store ++ [(addSemanticChunk store newId now u s t mids emb).1] := rfl
  rw [hstore, userChunks, List.filter_append, List.count_append]
  have hone : List.filter (fun chunk => chunk.userId == u)
      [(addSemanticChunk store newId now u s t mids emb).1]
      = [(addSemanticChunk store newId now u s t mids emb).1] := by
    simp [addSemanticChunk]
  have hzero : (List.filter (fun chunk => chunk.userId == u) store).count
      (addSemanticChunk store newId now u s t mids emb).1 = 0 := by
    rw [List.count_eq_zero]
    intro hmem
    exact absurd rfl (hfresh _ (List.mem_of_mem_filter hmem))
  rw [hone, hzero, List.count_singleton_self]

/-- Witness for C9: appending for "alice" on a store already holding one
of her chunks, with a fresh id. -/
theorem addSemanticChunk_write_then_read_witness :
    (userChunks
        (addSemanticChunk [mkChunk "a" "alice" 0 [1]] "b" 5 "alice" "s2" "hello"
          ["m2"] [2]).2 "alice").count
      (addSemanticChunk [mkChunk "a" "alice" 0 [1]] "b" 5 "alice" "s2" "hello"
        ["m2"] [2]).1 = 1 :=
  (addSemanticChunk_write_then_read [mkChunk "a" "alice" 0 [1]] "b" 5 "alice"
    "s2" "hello" ["m2"] [2] (by decide)).1

/-! ## Claim C10: retrieval with the zero query embedding -/

/-- Claim C10: the fallback embedding of the empty string is the all-zero
32-dimensional vector; retrieving with that query assigns similarity 0 to
every returned context (the zero-magnitude guard of `cosineSimilarity`),
so every finalScore degenerates to `recencyScore * 0.2` and the ordering
is driven by recency alone. -/
theorem zero_query_retrieval :
    fallbackEmbedding [] = List.replicate 32 0 ∧
    ∀ (store : List SemanticMemoryChunk) (u : String) (count : ℕ) (now : ℤ)
      (r : RetrievedContext),
      r ∈ searchSemanticMemory store u (fallbackEmbedding []) count now →
      r.similarityScore = 0 ∧ r.finalScore = r.recencyScore * 0.2 := by
  have hemb : fallbackEmbedding [] = List.replicate 32 0 := by
    rw [fallbackEmbedding, accumBuckets, List.map_replicate, zero_div]
  refine ⟨hemb, ?_⟩
  intro store u count now r hr
  rcases exists_scoreChunk_of_mem store u (fallbackEmbedding []) count now r hr
    with ⟨c, _, rfl⟩
  have hsim : (scoreChunk now (fallbackEmbedding []) c).similarityScore = 0 := by
    show cosineSimilarity c.embedding (fallbackEmbedding []) = 0
    rw [hemb]
    exact cosineSimilarity_of_normSq_right _ _ (normSq_replicate_zero 32)
  refine ⟨hsim, ?_⟩
  have hfin : (scoreChunk now (fallbackEmbedding []) c).finalScore
      = (scoreChunk now (fallbackEmbedding []) c).similarityScore * 0.8
        + (scoreChunk now (fallbackEmbedding []) c).recencyScore * 0.2 := rfl
  rw [hfin, hsim]
  ring

/-- Witness for C10: the single-chunk store for "alice" queried with the
zero embedding. -/
theorem zero_query_retrieval_witness :
    (scoreChunk 7 (fallbackEmbedding []) (mkChunk "a" "alice" 0 [1])).similarityScore = 0 ∧
    (scoreChunk 7 (fallbackEmbedding []) (mkChunk "a" "alice" 0 [1])).finalScore
      = (scoreChunk 7 (fallbackEmbedding []) (mkChunk "a" "alice" 0 [1])).recencyScore * 0.2 :=
  zero_query_retrieval.2 [mkChunk "a" "alice" 0 [1]] "alice" 6 7
    (scoreChunk 7 (fallbackEmbedding []) (mkChunk "a" "alice" 0 [1]))
    (by simp [searchSemanticMemory, userChunks, mkChunk])
